import Mathlib

/-!
Verification of the pacdef package reconciler backends.

This file gives a shallow embedding of the backend logic of the pacdef
repository and proves properties of it:

* `src/backends/arch.rs` — the Arch backend (`Arch::map_managed_packages`,
  `Arch::install_packages`, `Arch::remove_packages`),
* `src/backends/cargo.rs` — the Cargo backend (`extract_packages`,
  `Cargo::query_installed_packages`, `Cargo::install_packages`,
  `Cargo::remove_packages`, `Cargo::map_managed_packages`),
* `crates/pacdef_core/src/backend/actual/rustup.rs` — the Rustup backend
  (`Rustup::remove_packages`, `install_components`, the toolchain line
  parsing of `run_toolchain_command`).

External processes are modelled by environment records that carry the
captured stdout of each query invocation (assumed to succeed, matching the
`?`-propagation in the source, whose failure branches are not at issue in
the claims) and a success predicate for state-changing invocations.
Rust `BTreeMap<String, V>` is modelled by `BMap V`: a list of key/value
pairs kept sorted by `bmInsert`, with first-match lookup.  A Rust panic
(`unwrap`, `expect`, `panic!`) is modelled as a distinguished outcome,
kept separate from `Result::Err`.
-/

/-- Outcome of a fallible computation: `ok` models Rust `Result::Ok`,
`err` models `Result::Err` (an error value propagated to the caller),
`panicked` models a Rust panic (`unwrap` / `expect` / `panic!` on bad
input), which aborts the process and is *not* an error result. -/
inductive RunResult (α : Type) where
  | ok (val : α)
  | err (msg : String)
  | panicked
deriving DecidableEq

/-- Auxiliary scan for `splitChar`: `acc` holds the current chunk's
characters in reverse. -/
def splitCharAux (c : Char) : List Char → List Char → List String
  | [], acc => [String.mk acc.reverse]
  | x :: xs, acc =>
    if x = c then String.mk acc.reverse :: splitCharAux c xs []
    else splitCharAux c xs (x :: acc)

/-- Rust `str::split(c)` for a character separator: every occurrence splits,
empty chunks included, and a string without the separator yields one chunk. -/
def splitChar (c : Char) (s : String) : List String :=
  splitCharAux c s.data []

/-- Auxiliary scan for `splitOnce`. -/
def splitOnceAux (c : Char) : List Char → List Char → Option (String × String)
  | [], _ => none
  | x :: xs, acc =>
    if x = c then some (String.mk acc.reverse, String.mk xs)
    else splitOnceAux c xs (x :: acc)

/-- Rust `str::split_once(c)`: split at the first occurrence of `c`;
`none` when `c` does not occur. -/
def splitOnce (c : Char) (s : String) : Option (String × String) :=
  splitOnceAux c s.data []

/-- Auxiliary scan for `rustSplitN`: `fuel` is the number of splits still
allowed. -/
def splitNCharAux (c : Char) : Nat → List Char → List Char → List String
  | _, [], acc => [String.mk acc.reverse]
  | 0, x :: xs, acc => splitNCharAux c 0 xs (x :: acc)
  | fuel + 1, x :: xs, acc =>
    if x = c then String.mk acc.reverse :: splitNCharAux c fuel xs []
    else splitNCharAux c (fuel + 1) xs (x :: acc)

/-- Rust `str::splitn(n, c)`: like `splitChar`, but at most `n` chunks, the
last chunk keeping any remaining separators. -/
def rustSplitN (n : Nat) (c : Char) (s : String) : List String :=
  match n with
  | 0 => []
  | k + 1 => splitNCharAux c k s.data []

/-- Rust `str::starts_with`, on the character data. -/
def strStartsWith (s pre : String) : Bool :=
  pre.data.isPrefixOf s.data

/-- Lexicographic order on character lists, the order of Rust
`BTreeMap<String, _>` keys. -/
def charsLt : List Char → List Char → Bool
  | [], [] => false
  | [], _ :: _ => true
  | _ :: _, [] => false
  | a :: as, b :: bs =>
    if a.toNat < b.toNat then true
    else if b.toNat < a.toNat then false
    else charsLt as bs

/-- Lexicographic order on strings. -/
def strLt (s t : String) : Bool :=
  charsLt s.data t.data

/-- Model of `BTreeMap<String, V>`: an association list kept sorted by key. -/
abbrev BMap (α : Type) : Type := List (String × α)

/-- `BTreeMap::insert`: insert at the sorted position, replacing an existing
binding for the same key. -/
def bmInsert (k : String) (v : α) : BMap α → BMap α
  | [] => [(k, v)]
  | (k', v') :: rest =>
    if strLt k k' then (k, v) :: (k', v') :: rest
    else if k = k' then (k, v) :: rest
    else (k', v') :: bmInsert k v rest

/-- `BTreeMap::remove`: drop the binding of `k` (on a well-formed map there
is at most one). -/
def bmRemove (k : String) (m : BMap α) : BMap α :=
  m.filter (fun kv => decide (kv.1 ≠ k))

/-- `BTreeMap::get`: first binding of `k`, if any. -/
def bmLookup (k : String) : BMap α → Option α
  | [] => none
  | (k', v) :: rest => if k' = k then some v else bmLookup k rest

/-- `BTreeMap::keys` (in iteration order). -/
def bmKeys (m : BMap α) : List String :=
  m.map Prod.fst

/-- Insert every element of `l` with the same value `v`, left to right
(a `for` loop of inserts in the source). -/
def bmInsertAll (l : List String) (v : α) (m : BMap α) : BMap α :=
  l.foldl (fun ps x => bmInsert x v ps) m

/-! ## Arch backend (`src/backends/arch.rs`) -/

/-- `ArchInstallOptions` (arch.rs 15-20): the per-package install options,
an optional-dependency list.  `Default` derives the empty list. -/
structure ArchInstallOptions where
  optional_deps : List String
deriving DecidableEq

/-- `ArchInstallOptions::default()`. -/
def ArchInstallOptions.default : ArchInstallOptions :=
  ⟨[]⟩

/-- Environment of one Arch backend run: the configured package-manager
command and the captured stdout lines of each query invocation, plus a
success predicate for the state-changing invocations (`run_command`). -/
structure ArchEnv where
  /-- whether `version` (pacman `--version`) succeeds (arch.rs 250-256). -/
  versionOk : Bool
  /-- `config.arch_package_manager.as_command()`. -/
  manager : String
  /-- lines of `<manager> --sync --groups --quiet` (arch.rs 34-43). -/
  groups : List String
  /-- lines of `<manager> --sync --groups --quiet <group>` (arch.rs 47-57). -/
  groupMembers : String → List String
  /-- lines of `<manager> --sync --list --quiet` (arch.rs 99-111). -/
  allPackages : List String
  /-- lines of `<manager> --query --deps --unrequired --quiet` (arch.rs 211-221). -/
  orphans : List String
  /-- exit success of a `run_command` invocation with the given argv. -/
  cmdSuccess : List String → Bool

namespace Arch

/-- One iteration of the group-expansion loop (arch.rs 45-69): if the
desired map holds an entry for `group`, remove it and insert every group
member with the group's install options. -/
def expandStep (env : ArchEnv) (pkgs : BMap ArchInstallOptions) (group : String) :
    BMap ArchInstallOptions :=
  match bmLookup group pkgs with
  | none => pkgs
  | some install_options =>
    bmInsertAll (env.groupMembers group) install_options (bmRemove group pkgs)

/-- The group-expansion loop over all catalog groups (arch.rs 45-69). -/
def expandGroups (env : ArchEnv) (pkgs : BMap ArchInstallOptions) :
    BMap ArchInstallOptions :=
  env.groups.foldl (expandStep env) pkgs

/-- One iteration of the flattening loop (arch.rs 74-92): insert the package
itself with *default* install options, then each of its declared optional
dependencies with default install options. -/
def flattenStep (fp : BMap ArchInstallOptions) (entry : String × ArchInstallOptions) :
    BMap ArchInstallOptions :=
  bmInsertAll entry.2.optional_deps ArchInstallOptions.default
    (bmInsert entry.1 ArchInstallOptions.default fp)

/-- The flattening loop (arch.rs 71-95), building `final_packages` from an
empty map. -/
def flattenPackages (pkgs : BMap ArchInstallOptions) : BMap ArchInstallOptions :=
  pkgs.foldl flattenStep []

/-- `Arch::map_managed_packages` (arch.rs 26-140): empty map if `version`
fails; otherwise expand groups, flatten optional dependencies (defaulting
every entry's options), and drop every name not in the full installable
package list (arch.rs 113-137). -/
def map_managed_packages (env : ArchEnv) (packages : BMap ArchInstallOptions) :
    BMap ArchInstallOptions :=
  if env.versionOk then
    (flattenPackages (expandGroups env packages)).filter
      (fun kv => decide (kv.1 ∈ env.allPackages))
  else []

/-- The argv of the single install invocation (arch.rs 172-187): sync as
explicit, the no-confirm switch (spelled `--no_confirm` in the source) when
requested, then all package names, then every entry's optional-dependency
list. -/
def installCmd (manager : String) (packages : BMap ArchInstallOptions)
    (no_confirm : Bool) : List String :=
  [manager, "--sync", "--asexplicit"]
    ++ (if no_confirm then ["--no_confirm"] else [])
    ++ bmKeys packages
    ++ (packages.map (fun kv => kv.2.optional_deps)).flatten

/-- `Arch::install_packages` (arch.rs 167-192): nothing to do on an empty
map, otherwise one invocation.  Returns the result together with the list
of issued invocations. -/
def install_packages (env : ArchEnv) (packages : BMap ArchInstallOptions)
    (no_confirm : Bool) : RunResult Unit × List (List String) :=
  if packages.isEmpty then (.ok (), [])
  else
    let cmd := installCmd env.manager packages no_confirm
    ((if env.cmdSuccess cmd then .ok () else .err "command failed"), [cmd])

/-- `Arch::remove_packages` (arch.rs 194-239): nothing on an empty set,
otherwise mark the names as dependencies, query the orphans, and remove the
orphan set recursively (the orphan query is a stdout capture, not a
state-changing invocation, so only the two `run_command` argvs appear in
the trace). -/
def remove_packages (env : ArchEnv) (packages : List String)
    (no_confirm : Bool) : RunResult Unit × List (List String) :=
  if packages.isEmpty then (.ok (), [])
  else
    let cmd1 := [env.manager, "--database", "--asdeps"] ++ packages
    if env.cmdSuccess cmd1 then
      let cmd2 := [env.manager, "--remove", "--nosave", "--recursive"]
        ++ (if no_confirm then ["--noconfirm"] else [])
        ++ env.orphans
      ((if env.cmdSuccess cmd2 then .ok () else .err "command failed"), [cmd1, cmd2])
    else (.err "command failed", [cmd1])

end Arch

/-! ## Cargo backend (`src/backends/cargo.rs`) -/

/-- `CargoQueryInfo` (cargo.rs 16-23). -/
structure CargoQueryInfo where
  version : String
  git : Option String
  all_features : Bool
  no_default_features : Bool
  features : List String
deriving DecidableEq

/-- `CargoInstallOptions` (cargo.rs 25-35). -/
structure CargoInstallOptions where
  git : Option String
  all_features : Bool
  no_default_features : Bool
  features : List String
deriving DecidableEq

/-- Environment of one Cargo backend run. -/
structure CargoEnv where
  /-- whether `cargo --version` succeeds (cargo.rs 123-125). -/
  versionOk : Bool
  /-- exit success of a `run_command` invocation with the given argv. -/
  cmdSuccess : List String → Bool

/-- A JSON value, as parsed by serde_json (objects as key/value lists,
iterated in the map's order). -/
inductive Json where
  | null
  | bool (b : Bool)
  | num (n : Int)
  | str (s : String)
  | arr (elems : List Json)
  | obj (entries : List (String × Json))

/-- Assoc lookup inside a JSON object's entry list. -/
def jsonFind (key : String) : List (String × Json) → Option Json
  | [] => none
  | (k, v) :: rest => if k = key then some v else jsonFind key rest

/-- `serde_json::Value::get` with a string key: a field of an object,
`none` on every other value. -/
def jsonGet (key : String) : Json → Option Json
  | .obj entries => jsonFind key entries
  | _ => none

/-- `Value::is_object`. -/
def Json.isObj : Json → Bool
  | .obj _ => true
  | _ => false

/-- `as_str().unwrap()` mapped over a JSON array's elements (cargo.rs
157-164); `none` models the panic on a non-string element. -/
def strList : List Json → Option (List String)
  | [] => some []
  | .str s :: rest => (strList rest).map (fun l => s :: l)
  | _ :: _ => none

namespace Cargo

/-- The per-entry body of the iterator in `extract_packages` (cargo.rs
137-175), faithful to its `unwrap`s: a non-object value, a key without two
spaces, a missing `all_features` / `no_default_features` / `features`
field, a non-boolean flag, a non-array `features`, or a non-string feature
all panic.  The git pin is the part of the source descriptor between the
`(git+` marker and the first `#` (cargo.rs 143-153). -/
def parseLedgerEntry (name : String) (value : Json) :
    RunResult (String × CargoQueryInfo) :=
  match value with
  | .obj fields =>
    match splitOnce ' ' name with
    | none => .panicked
    | some (pkgName, version_source) =>
      match splitOnce ' ' version_source with
      | none => .panicked
      | some (version, source) =>
        let gitPart : RunResult (Option String) :=
          if strStartsWith source "(git+" then
            match (splitChar '+' source).get? 1 with
            | none => .panicked
            | some tail => .ok (some ((splitChar '#' tail).headD ""))
          else .ok none
        match gitPart with
        | .panicked => .panicked
        | .err m => .err m
        | .ok git =>
          match jsonFind "all_features" fields with
          | some (.bool all_features) =>
            (match jsonFind "no_default_features" fields with
             | some (.bool no_default_features) =>
               (match jsonFind "features" fields with
                | some (.arr elems) =>
                  (match strList elems with
                   | some features =>
                     .ok (pkgName,
                       ⟨version, git, all_features, no_default_features, features⟩)
                   | none => .panicked)
                | some _ => .panicked
                | none => .panicked)
             | some _ => .panicked
             | none => .panicked)
          | some _ => .panicked
          | none => .panicked
  | _ => .panicked

/-- The collecting iteration of `extract_packages` over the `installs`
entries (cargo.rs 131-177); the first malformed entry panics. -/
def extractEntries : List (String × Json) → BMap CargoQueryInfo →
    RunResult (BMap CargoQueryInfo)
  | [], acc => .ok acc
  | (name, value) :: rest, acc =>
    match parseLedgerEntry name value with
    | .ok (n, info) => extractEntries rest (bmInsert n info acc)
    | .err m => .err m
    | .panicked => .panicked

/-- `extract_packages` (cargo.rs 128-180): a missing `installs` field or a
non-object `installs` value is a proper error; the entries are then parsed
by `parseLedgerEntry`. -/
def extract_packages (json : Json) : RunResult (BMap CargoQueryInfo) :=
  match jsonGet "installs" json with
  | none => .err "get 'installs' field from json"
  | some installs =>
    match installs with
    | .obj entries => extractEntries entries []
    | _ => .err "getting object"

/-- The parsing step of `Cargo::query_installed_packages` (cargo.rs 66)
on already-read, already-JSON-parsed ledger contents: `wrap_err` adds the
context naming the crates file to an error; a panic is not wrapped. -/
def query_from_ledger (json : Json) : RunResult (BMap CargoQueryInfo) :=
  match extract_packages json with
  | .err m => .err ("extracting packages from crates file: " ++ m)
  | r => r

/-- `Cargo::map_managed_packages` (cargo.rs 41-46): the identity; the
config (and hence the version probe) is ignored. -/
def map_managed_packages (_env : CargoEnv) (packages : BMap CargoInstallOptions) :
    BMap CargoInstallOptions :=
  packages

/-- The argv of one `cargo install` invocation (cargo.rs 75-98). -/
def installCmd (package : String) (options : CargoInstallOptions) : List String :=
  ["cargo", "install"]
    ++ (match options.git with
        | some url => ["--git", url]
        | none => [])
    ++ (if options.all_features then ["--all-features"] else [])
    ++ (if options.no_default_features then ["--no-default-features"] else [])
    ++ (if options.features.isEmpty then [] else "--features" :: options.features)
    ++ [package]

/-- The `for (package, options) in packages` loop of
`Cargo::install_packages` (cargo.rs 74-99): one invocation per entry,
aborting at the first failure. -/
def installLoop (env : CargoEnv) :
    BMap CargoInstallOptions → RunResult Unit × List (List String)
  | [] => (.ok (), [])
  | (package, options) :: rest =>
    let cmd := installCmd package options
    if env.cmdSuccess cmd then
      let (r, cmds) := installLoop env rest
      (r, cmd :: cmds)
    else (.err "command failed", [cmd])

/-- `Cargo::install_packages` (cargo.rs 69-102).  The no-confirm flag is
ignored by this backend (the `_: bool` parameter in the source). -/
def install_packages (env : CargoEnv) (packages : BMap CargoInstallOptions)
    (_no_confirm : Bool) : RunResult Unit × List (List String) :=
  installLoop env packages

/-- `Cargo::remove_packages` (cargo.rs 104-115): skipped entirely on an
empty set, otherwise a single `cargo uninstall` of all names.  The
no-confirm flag is ignored by this backend. -/
def remove_packages (env : CargoEnv) (packages : List String)
    (_no_confirm : Bool) : RunResult Unit × List (List String) :=
  if packages.isEmpty then (.ok (), [])
  else
    let cmd := ["cargo", "uninstall"] ++ packages
    ((if env.cmdSuccess cmd then .ok () else .err "command failed"), [cmd])

end Cargo

/-! ## Rustup backend (`crates/pacdef_core/src/backend/actual/rustup.rs`) -/

/-- A pacdef package as used by the rustup backend: a name and an optional
repository (kind) tag, `"toolchain"` or `"component"`. -/
structure Package where
  name : String
  repo : Option String
deriving DecidableEq

/-- Environment of one Rustup backend run: exit success of each spawned
`rustup` invocation. -/
structure RustupEnv where
  cmdSuccess : List String → Bool

/-- Outcome of `Rustup::remove_packages`: overall success (`Ok(0)`),
early return on a failing invocation (the source returns that invocation's
`Result<ExitStatus>`), the `bail!` for a package without a kind tag
(rustup.rs 100-104 / 120-124), or the `panic!` for a component entry whose
name has no component part after the first `/` (rustup.rs 139-141). -/
inductive RustupRemoveResult where
  | success
  | cmdFailed (cmd : List String)
  | errMissingRepoTag
  | panickedMissingComponent (name : String)
deriving DecidableEq

namespace Rustup

/-- `BINARY` (rustup.rs 20). -/
def binary : String := "rustup"

/-- The per-line parse of `run_toolchain_command` (rustup.rs 182-185): a
toolchain listing line is `splitn(2, '-')` and the first chunk is the
toolchain identity (`splitn` always yields at least one chunk, so the
`expect` cannot fire; `headD` mirrors that first chunk). -/
def parseToolchainLine (line : String) : String :=
  (rustSplitN 2 '-' line).headD ""

/-- The fixed allowlist of single-word component names (rustup.rs 216). -/
def singleWordComponents : List String :=
  ["cargo", "rustfmt", "clippy", "miri", "rls", "rustc"]

/-- `install_components` (rustup.rs 211-231): parse one component listing
line under `toolchain` and produce the pushed `"<toolchain>/<component>"`
value; a first chunk outside the allowlist takes the second chunk as the
second word of the component name, and its absence is the
`expect("No such component is managed by rustup")` panic. -/
def install_components (line : String) (toolchain : String) : RunResult String :=
  match rustSplitN 3 '-' line with
  | [] => .panicked
  | component :: rest =>
    if singleWordComponents.contains component then
      .ok (toolchain ++ "/" ++ component)
    else
      match rest.head? with
      | none => .panicked
      | some second =>
        .ok (toolchain ++ "/" ++ (component ++ "-" ++ second))

/-- The canonical identifier synthesis of `get_all_installed_packages`
(rustup.rs 44-49): `["component", name].join("/")` over the value produced
by `install_components`. -/
def componentIdentifier (line : String) (toolchain : String) : RunResult String :=
  match install_components line toolchain with
  | .ok name => .ok ("component/" ++ name)
  | .err m => .err m
  | .panicked => .panicked

/-- `get_remove_switches(Repotype::Toolchain)` applied to a name
(rustup.rs 107-109, 199). -/
def toolchainRemoveCmd (name : String) : List String :=
  [binary, "toolchain", "uninstall", name]

/-- `get_remove_switches(Repotype::Component)` applied to a toolchain and a
component (rustup.rs 134-142, 200). -/
def componentRemoveCmd (toolchain component : String) : List String :=
  [binary, "component", "remove", "--toolchain", toolchain, component]

/-- Pass 1 of `Rustup::remove_packages` (rustup.rs 99-117): remove every
toolchain-kind package, recording its name in `toolchains_rem`; bail on a
missing kind tag; return early on a failing invocation.  `Except.error`
carries an early return together with the trace so far. -/
def remove_pass1 (env : RustupEnv) :
    List Package → List String → List (List String) →
    Except (RustupRemoveResult × List (List String)) (List String × List (List String))
  | [], rem, trace => .ok (rem, trace)
  | p :: rest, rem, trace =>
    match p.repo with
    | none => .error (.errMissingRepoTag, trace)
    | some repo =>
      if repo = "toolchain" then
        let cmd := toolchainRemoveCmd p.name
        if env.cmdSuccess cmd then
          remove_pass1 env rest (rem ++ [p.name]) (trace ++ [cmd])
        else .error (.cmdFailed cmd, trace ++ [cmd])
      else remove_pass1 env rest rem trace

/-- Pass 2 of `Rustup::remove_packages` (rustup.rs 119-149): remove every
component-kind package whose owning toolchain (the first `/`-chunk of its
name) was not removed in pass 1.  `split('/')` always yields a first chunk
(even for the empty name), so the `bail!` guarded by `iter.peek()` in the
source is unreachable and `headD` mirrors the first chunk; the absence of a
second chunk is the `panic!("Component name not provided ...")`. -/
def remove_pass2 (env : RustupEnv) (rem : List String) :
    List Package → List (List String) → RustupRemoveResult × List (List String)
  | [], trace => (.success, trace)
  | p :: rest, trace =>
    match p.repo with
    | none => (.errMissingRepoTag, trace)
    | some repo =>
      let parts := splitChar '/' p.name
      let toolchain := parts.headD ""
      if repo = "component" ∧ toolchain ∉ rem then
        match parts.get? 1 with
        | none => (.panickedMissingComponent p.name, trace)
        | some component =>
          let cmd := componentRemoveCmd toolchain component
          if env.cmdSuccess cmd then remove_pass2 env rem rest (trace ++ [cmd])
          else (.cmdFailed cmd, trace ++ [cmd])
      else remove_pass2 env rem rest trace

/-- `Rustup::remove_packages` (rustup.rs 96-151): pass 1, then pass 2 over
the same package list.  Returns the outcome together with the list of
issued invocations. -/
def remove_packages (env : RustupEnv) (packages : List Package) :
    RustupRemoveResult × List (List String) :=
  match remove_pass1 env packages [] [] with
  | .error res => res
  | .ok (rem, trace) => remove_pass2 env rem packages trace

/-- The owning toolchain of a component-kind package: the first `/`-chunk
of its name (rustup.rs 126-131). -/
def ownerToolchain (p : Package) : String :=
  (splitChar '/' p.name).headD ""

/-- The component part of a component-kind package: the second `/`-chunk of
its name (rustup.rs 138-142). -/
def componentNameOf (p : Package) : String :=
  ((splitChar '/' p.name).drop 1).headD ""

/-- The toolchain names recorded by pass 1 (`toolchains_rem`). -/
def removedToolchainNames (packages : List Package) : List String :=
  (packages.filter (fun p => decide (p.repo = some "toolchain"))).map Package.name

/-- The invocations issued by pass 1. -/
def toolchainRemovals (packages : List Package) : List (List String) :=
  (packages.filter (fun p => decide (p.repo = some "toolchain"))).map
    (fun p => toolchainRemoveCmd p.name)

/-- The invocations issued by pass 2: one per component-kind package whose
owning toolchain is not in `rem`. -/
def componentRemovals (packages : List Package) (rem : List String) :
    List (List String) :=
  (packages.filter
      (fun p => decide (p.repo = some "component" ∧ ownerToolchain p ∉ rem))).map
    (fun p => componentRemoveCmd (ownerToolchain p) (componentNameOf p))

end Rustup

/-! ## Concrete environments and inputs -/

/-- An Arch environment whose catalog has the single group `base-devel`
with members `gcc` and `make`, both installable. -/
def envBaseDevel : ArchEnv where
  versionOk := true
  manager := "pacman"
  groups := ["base-devel"]
  groupMembers := fun g => if g = "base-devel" then ["gcc", "make"] else []
  allPackages := ["gcc", "make"]
  orphans := []
  cmdSuccess := fun _ => true

/-- The desired map `{"base-devel": {}}`. -/
def pkgsBaseDevel : BMap ArchInstallOptions :=
  [("base-devel", ⟨[]⟩)]

/-- An Arch environment with one group `g` whose sole member is `m`; `m`
and `d` are the installable packages. -/
def envGrp : ArchEnv where
  versionOk := true
  manager := "pacman"
  groups := ["g"]
  groupMembers := fun x => if x = "g" then ["m"] else []
  allPackages := ["m", "d"]
  orphans := []
  cmdSuccess := fun _ => true

/-- A desired map declaring group `g` with non-default install options
(an optional dependency `d`). -/
def pkgsGrp : BMap ArchInstallOptions :=
  [("g", ⟨["d"]⟩)]

/-- An Arch environment whose manager's version probe fails. -/
def envArchDown : ArchEnv where
  versionOk := false
  manager := "pacman"
  groups := []
  groupMembers := fun _ => []
  allPackages := []
  orphans := []
  cmdSuccess := fun _ => true

/-- A Cargo environment whose `cargo --version` probe fails. -/
def envCargoDown : CargoEnv where
  versionOk := false
  cmdSuccess := fun _ => true

/-- A well-formed ledger with one git-sourced entry (the §8 scenario). -/
def ledgerGit : Json :=
  Json.obj [("installs", Json.obj [
    ("foo 1.2.3 (git+https://example.com/foo#abcdef)",
      Json.obj [("all_features", .bool true), ("no_default_features", .bool false),
                ("features", .arr [.str "x"])])])]

/-- A ledger whose entry key `"foo"` lacks the two spaces of the
`"<name> <version> (<source>)"` shape. -/
def ledgerBadKey : Json :=
  Json.obj [("installs", Json.obj [("foo", Json.obj [])])]

/-- A ledger whose entry has a non-boolean `all_features` field. -/
def ledgerBadBool : Json :=
  Json.obj [("installs", Json.obj [
    ("foo 1.2.3 (registry+https://github.com/rust-lang/crates.io-index)",
      Json.obj [("all_features", .num 1), ("no_default_features", .bool false),
                ("features", .arr [.str "x"])])])]

/-- A ledger whose entry has a non-array `features` field. -/
def ledgerBadFeatures : Json :=
  Json.obj [("installs", Json.obj [
    ("foo 1.2.3 (registry+https://github.com/rust-lang/crates.io-index)",
      Json.obj [("all_features", .bool false), ("no_default_features", .bool false),
                ("features", .str "x")])])]

/-- A Rustup environment in which every invocation succeeds. -/
def rustupEnvOk : RustupEnv where
  cmdSuccess := fun _ => true

/-- The §8 removal scenario: `toolchain/stable` and `component/stable/clippy`
in one call. -/
def pkgsStableClippy : List Package :=
  [⟨"stable", some "toolchain"⟩, ⟨"stable/clippy", some "component"⟩]

/-! ## Theorems -/

/-- Claim C6: the Rustup installed-state parsing yields toolchain identity
`stable` from the listing line `stable-x86_64-unknown-linux-gnu`, canonical
identifier `component/stable/clippy` from the component line
`clippy-x86_64-unknown-linux-gnu` under toolchain `stable` (single-word
allowlisted component), and `component/stable/rust-src` from
`rust-src-x86_64-unknown-linux-gnu` (two hyphenated words for a first word
outside the allowlist). -/
theorem rustup_identifier_synthesis :
    Rustup.parseToolchainLine "stable-x86_64-unknown-linux-gnu" = "stable"
    ∧ Rustup.componentIdentifier "clippy-x86_64-unknown-linux-gnu" "stable"
        = .ok "component/stable/clippy"
    ∧ Rustup.componentIdentifier "rust-src-x86_64-unknown-linux-gnu" "stable"
        = .ok "component/stable/rust-src" := by
  decide

/-- Claim C7: the ledger entry keyed
`"foo 1.2.3 (git+https://example.com/foo#abcdef)"` with features `["x"]`
parses to name `foo`, version `1.2.3`, git pin `https://example.com/foo`,
and features `["x"]` copied verbatim (the boolean fields copied as well). -/
theorem cargo_ledger_roundtrip :
    Cargo.extract_packages ledgerGit
      = .ok [("foo", ⟨"1.2.3", some "https://example.com/foo", true, false, ["x"]⟩)] := by
  decide

/-- Claim C9 (failing input): on a non-empty map with the no-confirm flag
set, the single Arch install invocation spells the switch `--no_confirm`,
which is not the package manager's no-confirm switch `--noconfirm` (the
spelling `remove_packages` uses at arch.rs 232); the rest of the argv is as
specified: explicit sync, all names, then the optional-dependency lists. -/
theorem arch_install_no_confirm_flag_bug :
    Arch.install_packages envBaseDevel [("foo", ⟨["bar"]⟩)] true
      = (.ok (), [["pacman", "--sync", "--asexplicit", "--no_confirm", "foo", "bar"]])
    ∧ "--noconfirm" ∉ Arch.installCmd "pacman" [("foo", ⟨["bar"]⟩)] true := by
  decide

/-- Claim C10: with an empty desired map or name set, the Arch and Cargo
install and remove operations issue no external invocation and succeed. -/
theorem empty_input_no_invocation (aenv : ArchEnv) (cenv : CargoEnv) (nc : Bool) :
    Arch.install_packages aenv [] nc = (.ok (), [])
    ∧ Arch.remove_packages aenv [] nc = (.ok (), [])
    ∧ Cargo.install_packages cenv [] nc = (.ok (), [])
    ∧ Cargo.remove_packages cenv [] nc = (.ok (), []) :=
  ⟨rfl, rfl, rfl, rfl⟩

/-- Claim C1 counterexample: in `envGrp`, the desired map `{"g": {optional_deps:
["d"]}}` names the group `g` with member `m`; in the normalized map, `m` does
not carry the group's install options `{optional_deps: ["d"]}` — its options
are the default (and the group's optional dependency `d` became an entry of
its own). -/
theorem arch_group_options_not_inherited :
    bmLookup "m" (Arch.map_managed_packages envGrp pkgsGrp)
        ≠ some (ArchInstallOptions.mk ["d"])
    ∧ bmLookup "m" (Arch.map_managed_packages envGrp pkgsGrp)
        = some ArchInstallOptions.default
    ∧ bmLookup "d" (Arch.map_managed_packages envGrp pkgsGrp)
        = some ArchInstallOptions.default := by
  decide

/-- Claim C3 counterexample: the Cargo backend's `map_managed_packages`
never consults the version probe; with a failing probe it returns the
desired map unchanged, not the empty map. -/
theorem cargo_map_managed_ignores_version :
    envCargoDown.versionOk = false
    ∧ Cargo.map_managed_packages envCargoDown [("foo", ⟨none, false, false, []⟩)]
        = [("foo", ⟨none, false, false, []⟩)]
    ∧ Cargo.map_managed_packages envCargoDown [("foo", ⟨none, false, false, []⟩)]
        ≠ [] := by
  decide

/-- Claim C4 counterexample: a ledger whose entry key `"foo"` lacks the two
spaces of the expected shape makes the query's parsing step panic (a crash),
not return an error result. -/
theorem cargo_ledger_malformed_key_panics :
    Cargo.query_from_ledger ledgerBadKey = .panicked := by
  decide

/-- Claim C8 counterexample: a component-kind entry named `clippy` (no
toolchain prefix before a `/`) makes `remove_packages` panic at the missing
component chunk — the call crashes rather than returning an error result. -/
theorem rustup_remove_missing_component_panics :
    Rustup.remove_packages rustupEnvOk [⟨"clippy", some "component"⟩]
      = (.panickedMissingComponent "clippy", []) := by
  decide

/-! ### Map lemmas -/

theorem bmKeys_nil : bmKeys ([] : BMap α) = [] := rfl

theorem bmKeys_cons (kv : String × α) (m : BMap α) :
    bmKeys (kv :: m) = kv.1 :: bmKeys m := rfl

/-- The keys after an insert are the inserted key and the old keys. -/
theorem mem_keys_bmInsert_iff (v : α) (m : BMap α) (a k : String) :
    a ∈ bmKeys (bmInsert k v m) ↔ a = k ∨ a ∈ bmKeys m := by
  induction m with
  | nil => simp [bmInsert, bmKeys]
  | cons kv rest ih =>
    obtain ⟨k', v'⟩ := kv
    simp only [bmInsert]
    split
    · simp [bmKeys_cons, List.mem_cons]
    · split
      · rename_i hlt heq
        subst heq
        simp only [bmKeys_cons, List.mem_cons]
        tauto
      · simp only [bmKeys_cons, List.mem_cons, ih]
        tauto

/-- Keys other than the removed one survive `bmRemove`. -/
theorem mem_keys_bmRemove (m : BMap α) (a k : String)
    (h : a ∈ bmKeys m) (hne : a ≠ k) : a ∈ bmKeys (bmRemove k m) := by
  simp only [bmKeys, List.mem_map] at h ⊢
  obtain ⟨kv, hkv, hfst⟩ := h
  refine ⟨kv, List.mem_filter.mpr ⟨hkv, ?_⟩, hfst⟩
  simp [hfst, hne]

/-- The keys after inserting a whole list. -/
theorem mem_keys_bmInsertAll_iff (l : List String) (v : α) (m : BMap α) (a : String) :
    a ∈ bmKeys (bmInsertAll l v m) ↔ a ∈ l ∨ a ∈ bmKeys m := by
  induction l generalizing m with
  | nil => simp [bmInsertAll]
  | cons x xs ih =>
    show a ∈ bmKeys (bmInsertAll xs v (bmInsert x v m)) ↔ _
    rw [ih (bmInsert x v m)]
    simp only [mem_keys_bmInsert_iff, List.mem_cons]
    tauto

/-- A present key looks up to something. -/
theorem bmLookup_isSome (m : BMap α) (a : String) (h : a ∈ bmKeys m) :
    ∃ v, bmLookup a m = some v := by
  induction m with
  | nil => simp [bmKeys] at h
  | cons kv rest ih =>
    obtain ⟨k', v'⟩ := kv
    simp only [bmLookup]
    split
    · exact ⟨v', rfl⟩
    · rename_i hne
      apply ih
      simp only [bmKeys_cons, List.mem_cons] at h
      rcases h with h | h
      · exact absurd h.symm hne
      · exact h

/-- In a map all of whose values are `d`, every present key looks up to `d`
(no well-formedness of the map needed). -/
theorem bmLookup_eq_of_all (m : BMap α) (d : α)
    (hall : ∀ kv ∈ m, kv.2 = d) (a : String) (h : a ∈ bmKeys m) :
    bmLookup a m = some d := by
  induction m with
  | nil => simp [bmKeys] at h
  | cons kv rest ih =>
    obtain ⟨k', v'⟩ := kv
    simp only [bmLookup]
    split
    · have hv := hall (k', v') (List.mem_cons_self _ _)
      simp only at hv
      rw [hv]
    · rename_i hne
      apply ih
      · intro kv hkv
        exact hall kv (List.mem_cons_of_mem _ hkv)
      · simp only [bmKeys_cons, List.mem_cons] at h
        rcases h with h | h
        · exact absurd h.symm hne
        · exact h

/-- A present key has a pair in the list. -/
theorem mem_of_mem_keys (m : BMap α) (a : String) (h : a ∈ bmKeys m) :
    ∃ v, (a, v) ∈ m := by
  simp only [bmKeys, List.mem_map] at h
  obtain ⟨⟨k, v⟩, hkv, hfst⟩ := h
  simp only at hfst
  subst hfst
  exact ⟨v, hkv⟩

/-- Inserting the value `d` into a map all of whose values are `d` keeps
all values `d`. -/
theorem allval_bmInsert (m : BMap α) (d : α) (k : String)
    (hall : ∀ kv ∈ m, kv.2 = d) : ∀ kv ∈ bmInsert k d m, kv.2 = d := by
  induction m with
  | nil =>
    intro kv h
    simp only [bmInsert, List.mem_singleton] at h
    simp [h]
  | cons kv0 rest ih =>
    obtain ⟨k', v'⟩ := kv0
    intro kv h
    simp only [bmInsert] at h
    split at h
    · rcases List.mem_cons.mp h with h | h
      · simp [h]
      · exact hall kv h
    · split at h
      · rcases List.mem_cons.mp h with h | h
        · simp [h]
        · exact hall kv (List.mem_cons_of_mem _ h)
      · rcases List.mem_cons.mp h with h | h
        · rw [h]
          exact hall (k', v') (List.mem_cons_self _ _)
        · exact ih (fun kv hkv => hall kv (List.mem_cons_of_mem _ hkv)) kv h

/-- `bmInsertAll` with value `d` keeps all values `d`. -/
theorem allval_bmInsertAll (l : List String) (m : BMap α) (d : α)
    (hall : ∀ kv ∈ m, kv.2 = d) : ∀ kv ∈ bmInsertAll l d m, kv.2 = d := by
  induction l generalizing m with
  | nil => exact hall
  | cons x xs ih =>
    show ∀ kv ∈ bmInsertAll xs d (bmInsert x d m), kv.2 = d
    exact ih (bmInsert x d m) (allval_bmInsert m d x hall)

/-! ### Arch normalization lemmas -/

/-- Every value produced by the flattening loop is the default options
value, whatever the accumulator-so-far holds. -/
theorem allval_flatten_fold (l : BMap ArchInstallOptions) :
    ∀ acc : BMap ArchInstallOptions,
      (∀ kv ∈ acc, kv.2 = ArchInstallOptions.default) →
      ∀ kv ∈ List.foldl Arch.flattenStep acc l, kv.2 = ArchInstallOptions.default := by
  induction l with
  | nil => intro acc hacc; exact hacc
  | cons e rest ih =>
    intro acc hacc
    refine ih (Arch.flattenStep acc e) ?_
    exact allval_bmInsertAll e.2.optional_deps _ _
      (allval_bmInsert acc _ e.1 hacc)

/-- Every value of `flattenPackages` is the default options value. -/
theorem allval_flattenPackages (pkgs : BMap ArchInstallOptions) :
    ∀ kv ∈ Arch.flattenPackages pkgs, kv.2 = ArchInstallOptions.default :=
  allval_flatten_fold pkgs [] (by simp)

/-- Every key of the map being flattened is a key of the flattening loop's
result. -/
theorem mem_keys_flatten_fold (l : BMap ArchInstallOptions) :
    ∀ (acc : BMap ArchInstallOptions) (a : String),
      (a ∈ bmKeys acc ∨ a ∈ bmKeys l) →
      a ∈ bmKeys (List.foldl Arch.flattenStep acc l) := by
  induction l with
  | nil =>
    intro acc a h
    rcases h with h | h
    · exact h
    · simp [bmKeys] at h
  | cons e rest ih =>
    intro acc a h
    refine ih (Arch.flattenStep acc e) a ?_
    have step : ∀ b : String, b ∈ bmKeys (bmInsert e.1 ArchInstallOptions.default acc) →
        b ∈ bmKeys (Arch.flattenStep acc e) := by
      intro b hb
      exact (mem_keys_bmInsertAll_iff _ _ _ b).mpr (Or.inr hb)
    rcases h with h | h
    · exact Or.inl (step a ((mem_keys_bmInsert_iff _ _ _ _).mpr (Or.inr h)))
    · rcases List.mem_cons.mp h with h | h
      · exact Or.inl (step a ((mem_keys_bmInsert_iff _ _ _ _).mpr (Or.inl h)))
      · exact Or.inr h

theorem mem_keys_flattenPackages (pkgs : BMap ArchInstallOptions) (a : String)
    (h : a ∈ bmKeys pkgs) : a ∈ bmKeys (Arch.flattenPackages pkgs) :=
  mem_keys_flatten_fold pkgs [] a (Or.inr h)

/-- A key different from the processed group survives one expansion step. -/
theorem mem_keys_expandStep_of_ne (env : ArchEnv) (pkgs : BMap ArchInstallOptions)
    (group a : String) (h : a ∈ bmKeys pkgs) (hne : a ≠ group) :
    a ∈ bmKeys (Arch.expandStep env pkgs group) := by
  unfold Arch.expandStep
  cases bmLookup group pkgs with
  | none => exact h
  | some opts =>
    exact (mem_keys_bmInsertAll_iff _ _ _ a).mpr
      (Or.inr (mem_keys_bmRemove pkgs a group h hne))

/-- If the processed group has an entry, each of its members is a key after
the expansion step. -/
theorem mem_keys_expandStep_member (env : ArchEnv) (pkgs : BMap ArchInstallOptions)
    (group a : String) (hg : group ∈ bmKeys pkgs) (ha : a ∈ env.groupMembers group) :
    a ∈ bmKeys (Arch.expandStep env pkgs group) := by
  obtain ⟨opts, hopts⟩ := bmLookup_isSome pkgs group hg
  unfold Arch.expandStep
  rw [hopts]
  exact (mem_keys_bmInsertAll_iff _ _ _ a).mpr (Or.inl ha)

/-- A key that is not among the remaining groups survives the whole
expansion loop. -/
theorem mem_keys_expand_fold (env : ArchEnv) (gl : List String) :
    ∀ (pkgs : BMap ArchInstallOptions) (a : String),
      a ∈ bmKeys pkgs → a ∉ gl →
      a ∈ bmKeys (List.foldl (Arch.expandStep env) pkgs gl) := by
  induction gl with
  | nil => intro pkgs a h _; exact h
  | cons g' rest ih =>
    intro pkgs a h hng
    have hne : a ≠ g' := fun he => hng (he ▸ List.mem_cons_self _ _)
    have hnrest : a ∉ rest := fun hr => hng (List.mem_cons_of_mem _ hr)
    exact ih (Arch.expandStep env pkgs g') a
      (mem_keys_expandStep_of_ne env pkgs g' a h hne) hnrest

/-- A member of a group with an entry in the desired map is a key of the
expansion loop's result, provided the member is not itself a group. -/
theorem mem_keys_expand_fold_member (env : ArchEnv) (gl : List String) :
    ∀ (pkgs : BMap ArchInstallOptions) (g a : String),
      g ∈ gl → g ∈ bmKeys pkgs → a ∈ env.groupMembers g → a ∉ gl →
      a ∈ bmKeys (List.foldl (Arch.expandStep env) pkgs gl) := by
  induction gl with
  | nil => intro _ _ _ h; cases h
  | cons g' rest ih =>
    intro pkgs g a hgl hgk ha hng
    have hnrest : a ∉ rest := fun hr => hng (List.mem_cons_of_mem _ hr)
    by_cases hgg : g' = g
    · subst hgg
      exact mem_keys_expand_fold env rest (Arch.expandStep env pkgs g') a
        (mem_keys_expandStep_member env pkgs g' a hgk ha) hnrest
    · have hgrest : g ∈ rest := by
        rcases List.mem_cons.mp hgl with h | h
        · exact absurd h.symm hgg
        · exact h
      exact ih (Arch.expandStep env pkgs g') g a hgrest
        (mem_keys_expandStep_of_ne env pkgs g' g hgk (fun he => hgg he.symm)) ha hnrest

/-- Claim C2: every value in the map returned by the Arch backend's
`map_managed_packages` is the default `ArchInstallOptions` (empty
optional-dependency list) — the declared install options of each surviving
package are discarded during normalization. -/
theorem arch_options_discarded (env : ArchEnv) (packages : BMap ArchInstallOptions)
    (kv : String × ArchInstallOptions)
    (h : kv ∈ Arch.map_managed_packages env packages) :
    kv.2 = ArchInstallOptions.default := by
  unfold Arch.map_managed_packages at h
  split at h
  · exact allval_flattenPackages _ kv (List.mem_filter.mp h).1
  · simp at h

/-- Witness for C2 at a concrete environment and map. -/
theorem arch_options_discarded_witness :
    (("gcc", ArchInstallOptions.mk []) : String × ArchInstallOptions).2
      = ArchInstallOptions.default :=
  arch_options_discarded envBaseDevel pkgsBaseDevel ("gcc", ArchInstallOptions.mk [])
    (by decide)

/-- Claim C3 (amended): when the version probe fails, the Arch backend's
`map_managed_packages` returns the empty map; the Cargo backend's
`map_managed_packages` is the identity on the desired map regardless of the
version probe. -/
theorem map_managed_version_failure :
    (∀ (env : ArchEnv) (pkgs : BMap ArchInstallOptions),
        env.versionOk = false → Arch.map_managed_packages env pkgs = [])
    ∧ (∀ (env : CargoEnv) (pkgs : BMap CargoInstallOptions),
        Cargo.map_managed_packages env pkgs = pkgs) := by
  constructor
  · intro env pkgs h
    simp [Arch.map_managed_packages, h]
  · intro env pkgs
    rfl

/-- Witness for C3's Arch part at a concrete failing environment. -/
theorem map_managed_version_failure_witness :
    Arch.map_managed_packages envArchDown [("a", ⟨[]⟩)] = [] :=
  map_managed_version_failure.1 envArchDown [("a", ⟨[]⟩)] rfl

/-- Claim C4 (amended): a ledger JSON without a top-level `installs` field,
or whose `installs` value is not an object, fails the Cargo query's parsing
step with an error result carrying the context naming the crates file; but
a malformed entry — a key without two spaces, a non-boolean `all_features`,
a non-array `features` — crashes (panics) instead of returning an error
result. -/
theorem cargo_ledger_error_vs_panic :
    (∀ j : Json, jsonGet "installs" j = none →
        Cargo.query_from_ledger j
          = .err "extracting packages from crates file: get 'installs' field from json")
    ∧ (∀ j v : Json, jsonGet "installs" j = some v → v.isObj = false →
        Cargo.query_from_ledger j
          = .err "extracting packages from crates file: getting object")
    ∧ Cargo.query_from_ledger ledgerBadKey = .panicked
    ∧ Cargo.query_from_ledger ledgerBadBool = .panicked
    ∧ Cargo.query_from_ledger ledgerBadFeatures = .panicked := by
  refine ⟨?_, ?_, by decide, by decide, by decide⟩
  · intro j h
    have h1 : Cargo.extract_packages j = .err "get 'installs' field from json" := by
      unfold Cargo.extract_packages
      rw [h]
    unfold Cargo.query_from_ledger
    rw [h1]
    rfl
  · intro j v hg hobj
    have h1 : Cargo.extract_packages j = .err "getting object" := by
      unfold Cargo.extract_packages
      rw [hg]
      cases v with
      | obj entries => simp [Json.isObj] at hobj
      | null => rfl
      | bool b => rfl
      | num n => rfl
      | str s => rfl
      | arr es => rfl
    unfold Cargo.query_from_ledger
    rw [h1]
    rfl

/-- Witness for C4 at a concrete ledger without an `installs` field. -/
theorem cargo_ledger_error_vs_panic_witness :
    Cargo.query_from_ledger (Json.obj [])
      = .err "extracting packages from crates file: get 'installs' field from json" :=
  cargo_ledger_error_vs_panic.1 (Json.obj []) rfl

/-- Claim C1 (amended): in a run whose version probe succeeds, for a
catalog group `g` with an entry in the desired map, every member `m` of `g`
that is itself installable and not itself a group ends up in the normalized
map — with default install options (the group's declared options are
discarded; its optional dependencies become entries of their own); every
key of the normalized map is in the installable package list; and the
group's own entry is gone whenever the group name is not itself an
installable package name. -/
theorem arch_group_expansion (env : ArchEnv) (packages : BMap ArchInstallOptions)
    (g m : String) (hv : env.versionOk = true) (hg : g ∈ env.groups)
    (hgk : g ∈ bmKeys packages) (hm : m ∈ env.groupMembers g)
    (hmg : m ∉ env.groups) (hma : m ∈ env.allPackages) :
    bmLookup m (Arch.map_managed_packages env packages) = some ArchInstallOptions.default
    ∧ (∀ k, k ∈ bmKeys (Arch.map_managed_packages env packages) → k ∈ env.allPackages)
    ∧ (g ∉ env.allPackages → g ∉ bmKeys (Arch.map_managed_packages env packages)) := by
  have hres : Arch.map_managed_packages env packages
      = (Arch.flattenPackages (Arch.expandGroups env packages)).filter
          (fun kv => decide (kv.1 ∈ env.allPackages)) := by
    simp [Arch.map_managed_packages, hv]
  have hkeys : ∀ k, k ∈ bmKeys (Arch.map_managed_packages env packages) →
      k ∈ env.allPackages := by
    intro k hk
    rw [hres] at hk
    obtain ⟨v, hv2⟩ := mem_of_mem_keys _ k hk
    exact of_decide_eq_true (List.mem_filter.mp hv2).2
  refine ⟨?_, hkeys, fun hga hgk2 => hga (hkeys g hgk2)⟩
  have h1 : m ∈ bmKeys (Arch.expandGroups env packages) := by
    unfold Arch.expandGroups
    exact mem_keys_expand_fold_member env env.groups packages g m hg hgk hm hmg
  have h2 : m ∈ bmKeys (Arch.flattenPackages (Arch.expandGroups env packages)) :=
    mem_keys_flattenPackages _ m h1
  obtain ⟨v, hv3⟩ := mem_of_mem_keys _ m h2
  have hvd : v = ArchInstallOptions.default := allval_flattenPackages _ (m, v) hv3
  subst hvd
  have h4 : (m, ArchInstallOptions.default)
      ∈ (Arch.flattenPackages (Arch.expandGroups env packages)).filter
          (fun kv => decide (kv.1 ∈ env.allPackages)) :=
    List.mem_filter.mpr ⟨hv3, by simpa using hma⟩
  have h5 : m ∈ bmKeys ((Arch.flattenPackages (Arch.expandGroups env packages)).filter
      (fun kv => decide (kv.1 ∈ env.allPackages))) := by
    simp only [bmKeys, List.mem_map]
    exact ⟨(m, ArchInstallOptions.default), h4, rfl⟩
  rw [hres]
  exact bmLookup_eq_of_all _ _
    (fun kv hkv => allval_flattenPackages _ kv (List.mem_filter.mp hkv).1) m h5

/-- Witness for C1: the §8 scenario — desired map `{"base-devel": {}}`
normalizes to `{"gcc": {}, "make": {}}`, and the theorem instantiates on
member `gcc`. -/
theorem arch_group_expansion_witness :
    Arch.map_managed_packages envBaseDevel pkgsBaseDevel
      = [("gcc", ArchInstallOptions.default), ("make", ArchInstallOptions.default)]
    ∧ bmLookup "gcc" (Arch.map_managed_packages envBaseDevel pkgsBaseDevel)
        = some ArchInstallOptions.default :=
  ⟨by decide,
   (arch_group_expansion envBaseDevel pkgsBaseDevel "base-devel" "gcc"
      rfl (by decide) (by decide) (by decide) (by decide) (by decide)).1⟩

/-! ### Rustup removal lemmas -/

theorem removedToolchainNames_cons_tc (p : Package) (rest : List Package)
    (hp : p.repo = some "toolchain") :
    Rustup.removedToolchainNames (p :: rest)
      = p.name :: Rustup.removedToolchainNames rest := by
  simp [Rustup.removedToolchainNames, List.filter_cons, hp]

theorem removedToolchainNames_cons_not (p : Package) (rest : List Package)
    (hp : p.repo ≠ some "toolchain") :
    Rustup.removedToolchainNames (p :: rest) = Rustup.removedToolchainNames rest := by
  simp [Rustup.removedToolchainNames, List.filter_cons, hp]

theorem toolchainRemovals_cons_tc (p : Package) (rest : List Package)
    (hp : p.repo = some "toolchain") :
    Rustup.toolchainRemovals (p :: rest)
      = Rustup.toolchainRemoveCmd p.name :: Rustup.toolchainRemovals rest := by
  simp [Rustup.toolchainRemovals, List.filter_cons, hp]

theorem toolchainRemovals_cons_not (p : Package) (rest : List Package)
    (hp : p.repo ≠ some "toolchain") :
    Rustup.toolchainRemovals (p :: rest) = Rustup.toolchainRemovals rest := by
  simp [Rustup.toolchainRemovals, List.filter_cons, hp]

theorem componentRemovals_cons_match (p : Package) (rest : List Package)
    (rem : List String)
    (h : p.repo = some "component" ∧ Rustup.ownerToolchain p ∉ rem) :
    Rustup.componentRemovals (p :: rest) rem
      = Rustup.componentRemoveCmd (Rustup.ownerToolchain p) (Rustup.componentNameOf p)
          :: Rustup.componentRemovals rest rem := by
  simp [Rustup.componentRemovals, List.filter_cons, h.1, h.2]

theorem componentRemovals_cons_not (p : Package) (rest : List Package)
    (rem : List String)
    (h : ¬(p.repo = some "component" ∧ Rustup.ownerToolchain p ∉ rem)) :
    Rustup.componentRemovals (p :: rest) rem = Rustup.componentRemovals rest rem := by
  simp only [Rustup.componentRemovals, List.filter_cons]
  rw [if_neg]
  simp only [decide_eq_true_eq]
  exact h

/-- Pass 1 with every invocation succeeding removes exactly the
toolchain-kind packages, in order, recording their names. -/
theorem remove_pass1_all_ok (env : RustupEnv) (hok : ∀ c, env.cmdSuccess c = true) :
    ∀ (pkgs : List Package) (rem : List String) (trace : List (List String)),
      (∀ p ∈ pkgs, p.repo = some "toolchain" ∨ p.repo = some "component") →
      Rustup.remove_pass1 env pkgs rem trace
        = .ok (rem ++ Rustup.removedToolchainNames pkgs,
               trace ++ Rustup.toolchainRemovals pkgs) := by
  intro pkgs
  induction pkgs with
  | nil =>
    intro rem trace _
    simp [Rustup.remove_pass1, Rustup.removedToolchainNames, Rustup.toolchainRemovals]
  | cons p rest ih =>
    intro rem trace hrepo
    have hrest : ∀ q ∈ rest, q.repo = some "toolchain" ∨ q.repo = some "component" :=
      fun q hq => hrepo q (List.mem_cons_of_mem _ hq)
    rcases hrepo p (List.mem_cons_self _ _) with hp | hp
    · rw [show Rustup.remove_pass1 env (p :: rest) rem trace
          = Rustup.remove_pass1 env rest (rem ++ [p.name])
              (trace ++ [Rustup.toolchainRemoveCmd p.name]) by
        simp [Rustup.remove_pass1, hp, hok]]
      rw [ih (rem ++ [p.name]) (trace ++ [Rustup.toolchainRemoveCmd p.name]) hrest]
      rw [removedToolchainNames_cons_tc p rest hp, toolchainRemovals_cons_tc p rest hp]
      simp
    · rw [show Rustup.remove_pass1 env (p :: rest) rem trace
          = Rustup.remove_pass1 env rest rem trace by
        simp [Rustup.remove_pass1, hp]]
      rw [ih rem trace hrest]
      rw [removedToolchainNames_cons_not p rest (by simp [hp]),
          toolchainRemovals_cons_not p rest (by simp [hp])]

/-- Pass 2 with every invocation succeeding removes exactly the
component-kind packages whose owning toolchain is not in `rem`, in order. -/
theorem remove_pass2_all_ok (env : RustupEnv) (rem : List String)
    (hok : ∀ c, env.cmdSuccess c = true) :
    ∀ (pkgs : List Package) (trace : List (List String)),
      (∀ p ∈ pkgs, p.repo = some "toolchain" ∨ p.repo = some "component") →
      (∀ p ∈ pkgs, p.repo = some "component" → 2 ≤ (splitChar '/' p.name).length) →
      Rustup.remove_pass2 env rem pkgs trace
        = (.success, trace ++ Rustup.componentRemovals pkgs rem) := by
  intro pkgs
  induction pkgs with
  | nil =>
    intro trace _ _
    simp [Rustup.remove_pass2, Rustup.componentRemovals]
  | cons p rest ih =>
    intro trace hrepo hcomp
    have hrest : ∀ q ∈ rest, q.repo = some "toolchain" ∨ q.repo = some "component" :=
      fun q hq => hrepo q (List.mem_cons_of_mem _ hq)
    have hcrest : ∀ q ∈ rest, q.repo = some "component" →
        2 ≤ (splitChar '/' q.name).length :=
      fun q hq => hcomp q (List.mem_cons_of_mem _ hq)
    rcases hrepo p (List.mem_cons_self _ _) with hp | hp
    · -- toolchain-kind: pass 2 skips it
      rw [show Rustup.remove_pass2 env rem (p :: rest) trace
          = Rustup.remove_pass2 env rem rest trace by
        simp only [Rustup.remove_pass2, hp]
        rw [if_neg]
        intro hand
        exact absurd hand.1 (by decide)]
      rw [ih trace hrest hcrest]
      rw [componentRemovals_cons_not p rest rem (fun hand => by
        rw [hp] at hand
        exact absurd hand.1 (by decide))]
    · by_cases hmem : Rustup.ownerToolchain p ∈ rem
      · -- owning toolchain removed in pass 1: skipped
        rw [show Rustup.remove_pass2 env rem (p :: rest) trace
            = Rustup.remove_pass2 env rem rest trace by
          simp only [Rustup.remove_pass2, hp]
          rw [if_neg]
          intro hand
          exact hand.2 hmem]
        rw [ih trace hrest hcrest]
        rw [componentRemovals_cons_not p rest rem (fun hand => hand.2 hmem)]
      · -- a component removal is issued
        have hlen := hcomp p (List.mem_cons_self _ _) hp
        obtain ⟨a, b, t, hs⟩ : ∃ a b t, splitChar '/' p.name = a :: b :: t := by
          cases hsp : splitChar '/' p.name with
          | nil => rw [hsp] at hlen; simp at hlen
          | cons a u =>
            cases u with
            | nil => rw [hsp] at hlen; simp at hlen
            | cons b t => exact ⟨a, b, t, rfl⟩
        have howner : Rustup.ownerToolchain p = a := by
          simp [Rustup.ownerToolchain, hs]
        have hcname : Rustup.componentNameOf p = b := by
          simp [Rustup.componentNameOf, hs]
        rw [show Rustup.remove_pass2 env rem (p :: rest) trace
            = Rustup.remove_pass2 env rem rest
                (trace ++ [Rustup.componentRemoveCmd a b]) by
          have ha : a ∉ rem := howner ▸ hmem
          simp only [Rustup.remove_pass2, hp, hs]
          rw [if_pos ⟨trivial, ha⟩]
          simp [hok]]
        rw [ih (trace ++ [Rustup.componentRemoveCmd a b]) hrest hcrest]
        rw [componentRemovals_cons_match p rest rem ⟨hp, hmem⟩, howner, hcname]
        simp

/-- Claim C5: with every package kind-tagged and every component name
carrying a toolchain prefix, a successful `Rustup::remove_packages` run
issues exactly the pass-1 toolchain removals followed by the pass-2
component removals of those components whose owning toolchain was not
removed in pass 1. -/
theorem rustup_remove_two_pass (env : RustupEnv) (packages : List Package)
    (hrepo : ∀ p ∈ packages, p.repo = some "toolchain" ∨ p.repo = some "component")
    (hcomp : ∀ p ∈ packages, p.repo = some "component" →
        2 ≤ (splitChar '/' p.name).length)
    (hok : ∀ c, env.cmdSuccess c = true) :
    Rustup.remove_packages env packages
      = (.success,
         Rustup.toolchainRemovals packages
           ++ Rustup.componentRemovals packages (Rustup.removedToolchainNames packages)) := by
  unfold Rustup.remove_packages
  rw [remove_pass1_all_ok env hok packages [] [] hrepo]
  exact remove_pass2_all_ok env (Rustup.removedToolchainNames packages) hok
    packages (Rustup.toolchainRemovals packages) hrepo hcomp

/-- Witness for C5: removing `toolchain/stable` and `component/stable/clippy`
in one call issues only the toolchain removal. -/
theorem rustup_remove_two_pass_witness :
    Rustup.remove_packages rustupEnvOk pkgsStableClippy
      = (.success, [["rustup", "toolchain", "uninstall", "stable"]]) :=
  (rustup_remove_two_pass rustupEnvOk pkgsStableClippy (by decide) (by decide)
      (fun _ => rfl)).trans (by decide)

/-- Claim C8 (amended): a component-kind entry whose name has no `/` (no
toolchain prefix, hence no component chunk) makes `remove_packages` panic —
a crash, not an error result — unless its single chunk names a toolchain
removed in pass 1 of the same call, in which case the entry is skipped and
the call succeeds with only the toolchain removal issued. -/
theorem rustup_remove_malformed_component :
    (∀ (env : RustupEnv) (n : String), splitChar '/' n = [n] →
        Rustup.remove_packages env [⟨n, some "component"⟩]
          = (.panickedMissingComponent n, []))
    ∧ (∀ (env : RustupEnv) (t : String), (∀ c, env.cmdSuccess c = true) →
        splitChar '/' t = [t] →
        Rustup.remove_packages env [⟨t, some "toolchain"⟩, ⟨t, some "component"⟩]
          = (.success, [Rustup.toolchainRemoveCmd t])) := by
  constructor
  · intro env n hn
    unfold Rustup.remove_packages
    rw [show Rustup.remove_pass1 env [⟨n, some "component"⟩] [] [] = .ok ([], []) by
      simp [Rustup.remove_pass1]]
    simp [Rustup.remove_pass2, hn]
  · intro env t hok ht
    unfold Rustup.remove_packages
    rw [show Rustup.remove_pass1 env [⟨t, some "toolchain"⟩, ⟨t, some "component"⟩] [] []
        = .ok ([t], [Rustup.toolchainRemoveCmd t]) by
      simp [Rustup.remove_pass1, hok]]
    simp [Rustup.remove_pass2, ht]

/-- Witness for C8 at a concrete malformed component entry. -/
theorem rustup_remove_malformed_component_witness :
    Rustup.remove_packages rustupEnvOk [⟨"rustfmt", some "component"⟩]
      = (.panickedMissingComponent "rustfmt", []) :=
  rustup_remove_malformed_component.1 rustupEnvOk "rustfmt" (by decide)
